import Mathlib

/-!
Shallow embedding of the task-supervisor core of `ratatui-demo-clustrctrl`
(`src/main.rs`, `src/tasks.rs`), together with proofs settling the frozen
claims about its natural-language specification.

Modelling conventions:
* `usize` task ids and timestamps (`chrono::DateTime<Local>`) become `Nat`.
* `JoinHandle<Option<i128>>` becomes a `Handle` record carrying the one bit
  the supervisor observes (`is_finished`); the environment marking a handle
  finished models the spawned unit returning.
* Fallible/panicking paths return `Option`: the unchecked index
  `self.tasks[id]` in the supervisor's drain loop is `none` when the index
  is out of bounds (a Rust panic).
* Randomness (`rand::random_range`, the synthetic-work fold) and the
  broadcast receiver's contents are oracles passed in as an `Env`.
-/

namespace Clustrctrl

/-- Task ids: `pub type Id = usize` in `tasks.rs`. -/
abbrev Id := Nat

/-- Timestamps, abstracting `chrono::DateTime<Local>`. -/
abbrev Time := Nat

/-- `enum TaskStatus` from `tasks.rs`. -/
inductive TaskStatus
  | Running
  | Sleeping
  | OnStrike
  | KnownUnknown
  | Finished
  | Canceled
deriving DecidableEq, Repr

/-- `enum TaskTxMsg` (worker → supervisor status messages) from `tasks.rs`. -/
inductive TaskTxMsg
  | LaborDispute (id : Id)
  | Reconciliation (id : Id)
  | RunReport (id : Id) (progress : Nat)
  | SleepReport (id : Id)
  | CancelReport (id : Id)
deriving DecidableEq, Repr

/-- `enum TaskRxMsg` (supervisor → workers control broadcast) from `tasks.rs`. -/
inductive TaskRxMsg
  | PleaseStop (id : Id)
  | EveryoneStopPls
deriving DecidableEq, Repr

/-- The supervisor-visible state of a `JoinHandle<Option<i128>>`:
whether `is_finished()` currently reports true. -/
structure Handle where
  finished : Bool
deriving DecidableEq, Repr

/-- `struct Task` from `tasks.rs` (the Task Record). `end` is a Lean
keyword, hence the field name `end_`. -/
structure Task where
  id : Id
  name : String
  status : TaskStatus
  start : Time
  end_ : Option Time
  description : String
  handle : Option Handle
  progress : Nat
  pending_cancel : Bool
deriving DecidableEq, Repr

/-- `struct CandidateTask` from `task_picker.rs`. -/
structure CandidateTask where
  name : String
  description : String
deriving DecidableEq, Repr

/-- `Task::new`: a fresh record in status `KnownUnknown`, progress 0, no
`end`, holding a live (unfinished) handle to the just-spawned unit. -/
def Task.new (ct : CandidateTask) (id : Id) (now : Time) : Task :=
  { id := id
    name := ct.name
    status := TaskStatus.KnownUnknown
    start := now
    end_ := none
    description := ct.description
    handle := some { finished := false }
    progress := 0
    pending_cancel := false }

/-- `self.handle.as_ref().map_or(false, |h| h.is_finished())` from
`Task::check_done`. -/
def handleIsFinished (h : Option Handle) : Bool :=
  match h with
  | some hh => hh.finished
  | none => false

/-- `Task::check_done` (`tasks.rs`): if the handle is present and finished,
set `status = Finished` unless it is already `Canceled`, set `end`, set
`progress = 100`, take the handle out of the record and return it;
otherwise leave the record alone and return nothing. -/
def Task.check_done (t : Task) (now : Time) : Task × Option Handle :=
  if handleIsFinished t.handle then
    ({ t with
        status := if t.status = TaskStatus.Canceled then t.status else TaskStatus.Finished
        end_ := some now
        progress := 100
        handle := none },
      t.handle)
  else
    (t, none)

/-- The target id carried by a status message. -/
def msgId : TaskTxMsg → Id
  | TaskTxMsg.LaborDispute i => i
  | TaskTxMsg.Reconciliation i => i
  | TaskTxMsg.RunReport i _ => i
  | TaskTxMsg.SleepReport i => i
  | TaskTxMsg.CancelReport i => i

/-- The per-record effect of one drained message: the match arms of the
drain loop in `App::update` (`main.rs` 139–166), each of which writes the
record's fields unconditionally. -/
def applyMsgToTask (t : Task) : TaskTxMsg → Task
  | TaskTxMsg.RunReport _ p => { t with progress := p, status := TaskStatus.Running }
  | TaskTxMsg.SleepReport _ => { t with status := TaskStatus.Sleeping }
  | TaskTxMsg.LaborDispute _ => { t with status := TaskStatus.OnStrike }
  | TaskTxMsg.Reconciliation _ => { t with status := TaskStatus.Running }
  | TaskTxMsg.CancelReport _ => { t with status := TaskStatus.Canceled }

/-- One drained message applied to the record collection. The source
indexes `self.tasks[id]` with no bounds check (the FIXME in `App::update`
notes the panic); an out-of-range id is therefore modelled as `none`
(panic), an in-range id as `some` of the updated collection. -/
def applyMsg (tasks : List Task) (m : TaskTxMsg) : Option (List Task) :=
  if h : msgId m < tasks.length then
    some (tasks.set (msgId m) (applyMsgToTask tasks[msgId m] m))
  else
    none

/-- The supervisor state: the fields of `struct App` the core manipulates
(`tasks`, `tasks_created`, the table selection used by
`cancel_selected_task`) plus the trace of control messages published on
the broadcast channel, kept for observability. -/
structure App where
  tasks : List Task
  tasks_created : Id
  selected : Option Nat
  published : List TaskRxMsg
deriving DecidableEq, Repr

/-- `App::default()`: no tasks, counter 0, nothing selected. -/
def App.init : App :=
  { tasks := [], tasks_created := 0, selected := none, published := [] }

/-- `App::add_task`: on a `Some` candidate, push a fresh record whose id is
the current `tasks_created` counter, then increment the counter; on `None`
just log. -/
def App.add_task (a : App) (ct : Option CandidateTask) (now : Time) : App :=
  match ct with
  | some ct =>
      { a with
          tasks := a.tasks ++ [Task.new ct a.tasks_created now]
          tasks_created := a.tasks_created + 1 }
  | none => a

/-- `App::cancel_selected_task`: if the table has a selection and a record
exists at that index, send `PleaseStop(task.id)` on the broadcast; on a
successful send (`sendOk`, i.e. the broadcast currently has a receiver)
set that record's `pending_cancel`; on a send error only log. With no
selection or no record at the selection, only log a warning. -/
def App.cancel_selected_task (a : App) (sendOk : Bool) : App :=
  match a.selected with
  | some sel =>
      match a.tasks[sel]? with
      | some t =>
          if sendOk then
            { a with
                published := a.published ++ [TaskRxMsg.PleaseStop t.id]
                tasks := a.tasks.set sel { t with pending_cancel := true } }
          else
            a
      | none => a
  | none => a

/-- The `for task in self.tasks.iter_mut() { task.check_done() ... }` pass
of `App::update`: finalize every record whose handle is observed finished
(awaiting the returned handle only logs). -/
def App.check_handles (a : App) (now : Time) : App :=
  { a with tasks := a.tasks.map (fun t => (t.check_done now).1) }

/-- Environment event: the spawned unit behind record `i`'s handle
returns, so `is_finished()` flips to true. -/
def markFinished (t : Task) : Task :=
  { t with handle := t.handle.map (fun _ => { finished := true }) }

def App.envFinish (a : App) (i : Nat) : App :=
  match a.tasks[i]? with
  | some t => { a with tasks := a.tasks.set i (markFinished t) }
  | none => a

/-- One supervisor-visible step: a task-creation request, one drained
status message (which must not panic for the program to continue), the
per-tick completion pass, a cancellation request, a table-selection
change, or the environment reporting that a unit's execution finished. -/
inductive Step : App → App → Prop
  | add {a : App} (ct : CandidateTask) (now : Time) :
      Step a (a.add_task (some ct) now)
  | addNone {a : App} (now : Time) :
      Step a (a.add_task none now)
  | drain {a : App} (m : TaskTxMsg) (ts : List Task) :
      applyMsg a.tasks m = some ts → Step a { a with tasks := ts }
  | check {a : App} (now : Time) :
      Step a (a.check_handles now)
  | cancel {a : App} (sendOk : Bool) :
      Step a (a.cancel_selected_task sendOk)
  | select {a : App} (s : Option Nat) :
      Step a { a with selected := s }
  | finish {a : App} (i : Nat) :
      Step a (a.envFinish i)

/-- States reachable from `App::default()` by supervisor operations. -/
inductive Reachable : App → Prop
  | init : Reachable App.init
  | step {a b : App} : Reachable a → Step a b → Reachable b

/-! ### The Work Unit (`Task::blocking_dummy_task`, `Task::check_for_term_message`) -/

/-- One observation made by the broadcast receiver's `try_recv` before it
reports `Empty`: either a control message or a `Lagged(n)` error. A
`Closed` error is modelled by the separate `closed` flag, checked once the
queued observations are exhausted. -/
inductive RxEvent
  | msg (m : TaskRxMsg)
  | lagged (by_ : Nat)
deriving DecidableEq, Repr

/-- `Task::check_for_term_message` (`tasks.rs` 176–209): loop over
`try_recv` results. `PleaseStop` addressed to this unit sends a
`CancelReport` and returns true; `PleaseStop` for someone else keeps
checking; `EveryoneStopPls` returns true with no report; `Lagged` logs and
keeps checking; `Closed` returns true with no report; `Empty` returns
false. The second component is the list of status messages sent during
the call. -/
def check_for_term_message (id : Id) (events : List RxEvent) (closed : Bool) :
    Bool × List TaskTxMsg :=
  match events with
  | [] => (closed, [])
  | RxEvent.msg (TaskRxMsg.PleaseStop addr) :: rest =>
      if addr = id then (true, [TaskTxMsg.CancelReport id])
      else check_for_term_message id rest closed
  | RxEvent.msg TaskRxMsg.EveryoneStopPls :: _ => (true, [])
  | RxEvent.lagged _ :: rest => check_for_term_message id rest closed

/-- Oracles feeding one run of `blocking_dummy_task`, indexed by the
running count `c` of cancellation checks performed so far:
`draws c` drives `rand::random_range(1..(remaining_time + 1))`;
`work c` is the amount the synthetic fold
`random_iter.take(111333777).fold(sum, acc + |num % 500|)` adds in the
iteration whose first check is check `c`; `rx c` and `closed c` are what
the broadcast receiver yields at check `c`. -/
structure Env where
  draws : Nat → Nat
  work : Nat → Int
  rx : Nat → List RxEvent
  closed : Nat → Bool

/-- `rand::random_range(1..(remaining_time + 1))` when `remaining_time = r > 0`:
a value in `[1, r]`, driven by the oracle value `d`. -/
def microsleep_draw (d r : Nat) : Nat := d % r + 1

/-- `(((time_to_sleep - remaining_time) as f64 / time_to_sleep as f64) * 100.0) as u8`:
the source computes in `f64` and truncates; this is exact rational
truncation. (The `f64` rounding can differ from the exact value by one
unit at exactness boundaries, but both are monotone in `T - r`, which is
all the development uses.) -/
def progressOf (T r : Nat) : Nat := (T - r) * 100 / T

/-- The `while remaining_time > 0` loop of `blocking_dummy_task`, with the
iteration count bounded by explicit `fuel` so that termination is a
theorem rather than an assumption: `none` means the fuel ran out, `some
(out, res)` means the loop exited having sent the status messages `out`,
with `res = some sum` on normal exhaustion and `res = none` when a
termination check fired. Each iteration: check for a stop message;
emit `RunReport` with the progress computed from the remaining time; add
the synthetic-work chunk to `sum`; draw a sub-interval in
`[1, remaining]` and subtract it; check again; emit `SleepReport`; sleep. -/
def runAux (env : Env) (id : Id) (T : Nat) :
    Nat → Nat → Nat → Int → List TaskTxMsg → Option (List TaskTxMsg × Option Int)
  | 0, r, _, sum, out =>
      if r = 0 then some (out, some sum) else none
  | fuel + 1, r, c, sum, out =>
      if r = 0 then some (out, some sum)
      else if (check_for_term_message id (env.rx c) (env.closed c)).1 then
        some (out ++ (check_for_term_message id (env.rx c) (env.closed c)).2, none)
      else if (check_for_term_message id (env.rx (c + 1)) (env.closed (c + 1))).1 then
        some (out ++ (check_for_term_message id (env.rx c) (env.closed c)).2
            ++ [TaskTxMsg.RunReport id (progressOf T r)]
            ++ (check_for_term_message id (env.rx (c + 1)) (env.closed (c + 1))).2, none)
      else
        runAux env id T fuel (r - microsleep_draw (env.draws c) r) (c + 2) (sum + env.work c)
          (out ++ (check_for_term_message id (env.rx c) (env.closed c)).2
            ++ [TaskTxMsg.RunReport id (progressOf T r)]
            ++ (check_for_term_message id (env.rx (c + 1)) (env.closed (c + 1))).2
            ++ [TaskTxMsg.SleepReport id])

/-- `Task::blocking_dummy_task` with total duration `T` (drawn from
`random_range(2..60)` in the source): the loop starts with
`remaining_time = T`, and `T` units of fuel are enough because every
iteration removes at least one unit of remaining time. -/
def blocking_dummy_task (env : Env) (id : Id) (T : Nat) :
    Option (List TaskTxMsg × Option Int) :=
  runAux env id T T T 0 0 []

/-- The progress values of the `RunReport`s in a status-message trace, in
emission order. -/
def runProgressList (msgs : List TaskTxMsg) : List Nat :=
  msgs.filterMap (fun m =>
    match m with
    | TaskTxMsg.RunReport _ p => some p
    | _ => none)

/-! ### Invariant predicates, and the concrete states, environments and
records that the claim counterexamples and witnesses evaluate -/

def idsInv (a : App) : Prop :=
  a.tasks_created = a.tasks.length ∧ a.tasks.map Task.id = List.range a.tasks.length

def finInv (t : Task) : Prop := t.end_.isSome = true ↔ t.handle = none

/-- The status that each arm of the drain loop writes: a function of the
message alone, with no regard for the record's current (possibly
terminal) status. -/
def drainStatusOfMsg : TaskTxMsg → TaskStatus
  | TaskTxMsg.RunReport _ _ => TaskStatus.Running
  | TaskTxMsg.SleepReport _ => TaskStatus.Sleeping
  | TaskTxMsg.LaborDispute _ => TaskStatus.OnStrike
  | TaskTxMsg.Reconciliation _ => TaskStatus.Running
  | TaskTxMsg.CancelReport _ => TaskStatus.Canceled

def ctClaim3 : CandidateTask := { name := "Onson Sweemey", description := "Repaint fence" }

/-- Reachable state in which the only record is `Finished`: a task is
created and cancelled; its unit returns before the cancel report is
drained, so the completion pass finalizes the record as `Finished` while
the unit's `CancelReport` is still queued. -/
def claim3Pre : App :=
  ((({ App.init.add_task (some ctClaim3) 0 with
      selected := some 0 }).cancel_selected_task true).envFinish 0).check_handles 1

/-- The straggler `CancelReport` is drained in the next tick. -/
def claim3Post : App :=
  { claim3Pre with tasks := (applyMsg claim3Pre.tasks (TaskTxMsg.CancelReport 0)).getD [] }

def claim4Env : Env :=
  { draws := fun _ => 0, work := fun _ => 0,
    rx := fun c => if c = 0 then [RxEvent.msg TaskRxMsg.EveryoneStopPls] else [],
    closed := fun _ => false }

def claim4wEnv : Env :=
  { draws := fun _ => 0, work := fun _ => 0,
    rx := fun _ => [RxEvent.msg (TaskRxMsg.PleaseStop 7)],
    closed := fun _ => false }

def ctClaim5 : CandidateTask := { name := "Anatoli Smorin", description := "Revandalize fence" }

/-- Reachable state whose only record is terminal (`Finished`, finalized
by the completion pass) with `pending_cancel` still false, and with the
table selection on it. -/
def claim5Pre : App :=
  { ((App.init.add_task (some ctClaim5) 0).envFinish 0).check_handles 1 with
      selected := some 0 }

def claim5Post : App := claim5Pre.cancel_selected_task true

def ctClaim5w : CandidateTask :=
  { name := "Rey McSriff", description := "help im trapped in a binary an" }

def claim5wApp : App := { App.init.add_task (some ctClaim5w) 0 with selected := some 0 }

def ctClaim6a : CandidateTask :=
  { name := "Glenallen Mixon", description := "Rehydrate the PDF files" }

def ctClaim6b : CandidateTask := { name := "Bobson Dugnutt", description := "Wait for Pokemon cards" }

def claim6wApp : App := (App.init.add_task (some ctClaim6a) 0).add_task (some ctClaim6b) 3

def ctClaim7 : CandidateTask := { name := "Sleve McDichael", description := "Re-attach turbo encabulator" }

/-- A task is created and cancelled; the unit acknowledges with a
`CancelReport` which the supervisor drains while the unit's handle is not
yet observed finished. -/
def claim7Pre : App :=
  ({ App.init.add_task (some ctClaim7) 0 with selected := some 0 }).cancel_selected_task true

def claim7Post : App :=
  { claim7Pre with tasks := (applyMsg claim7Pre.tasks (TaskTxMsg.CancelReport 0)).getD [] }

def ctClaim7w : CandidateTask := { name := "Onson Sweemey", description := "Repaint fence" }

def claim7wApp : App := ((App.init.add_task (some ctClaim7w) 0).envFinish 0).check_handles 5

def claim7wTask : Task :=
  { id := 0
    name := "Onson Sweemey"
    status := TaskStatus.Finished
    start := 0
    end_ := some 5
    description := "Repaint fence"
    handle := none
    progress := 100
    pending_cancel := false }

def ctClaim8 : CandidateTask := { name := "Dwigt Rortugal", description := "Recalibrate the fax" }

/-- A one-task run is finalized by the completion pass (progress 100, end
set)… -/
def claim8Pre : App := ((App.init.add_task (some ctClaim8) 0).envFinish 0).check_handles 1

/-- …and then a straggler `RunReport` for the same id is drained. -/
def claim8Post : App :=
  { claim8Pre with tasks := (applyMsg claim8Pre.tasks (TaskTxMsg.RunReport 0 42)).getD [] }

def claim8wEnv : Env :=
  { draws := fun _ => 0, work := fun _ => 5, rx := fun _ => [], closed := fun _ => false }

def claim8wTask : Task := Task.new ctClaim8 3 0

/-- Whether a run of the execution loop exited normally, returning a
completion sum (rather than running out of fuel or being cancelled). -/
def completedNormally (o : Option (List TaskTxMsg × Option Int)) : Bool :=
  match o with
  | some (_, some _) => true
  | _ => false

def claim9wEnv : Env :=
  { draws := fun _ => 0, work := fun _ => 7, rx := fun _ => [], closed := fun _ => false }

def ctClaim10 : CandidateTask := { name := "Todd Bonzalez", description := "Clean the grease trap" }

def claim10wApp : App := (App.init.add_task (some ctClaim10) 0).add_task (some ctClaim10) 2

/-! ### Helper lemmas -/

theorem applyMsgToTask_id (t : Task) (m : TaskTxMsg) : (applyMsgToTask t m).id = t.id := by
  cases m <;> rfl

theorem applyMsgToTask_end (t : Task) (m : TaskTxMsg) : (applyMsgToTask t m).end_ = t.end_ := by
  cases m <;> rfl

theorem applyMsgToTask_handle (t : Task) (m : TaskTxMsg) :
    (applyMsgToTask t m).handle = t.handle := by
  cases m <;> rfl

theorem check_done_fst_id (t : Task) (now : Time) : ((t.check_done now).1).id = t.id := by
  unfold Task.check_done
  split <;> rfl

theorem markFinished_id (t : Task) : (markFinished t).id = t.id := rfl

theorem applyMsg_eq_some {tasks : List Task} {m : TaskTxMsg} {ts : List Task}
    (h : applyMsg tasks m = some ts) :
    ∃ hlt : msgId m < tasks.length,
      ts = tasks.set (msgId m) (applyMsgToTask tasks[msgId m] m) := by
  unfold applyMsg at h
  split at h
  · next hlt => exact ⟨hlt, (Option.some.inj h).symm⟩
  · cases h

theorem set_self_of_getElem? {α : Type _} {l : List α} {n : Nat} {v : α}
    (h : l[n]? = some v) : l.set n v = l := by
  have hn : n < l.length := (List.getElem?_eq_some_iff.mp h).1
  apply List.ext_getElem?
  intro j
  rw [List.getElem?_set]
  by_cases hj : n = j
  · subst hj
    rw [if_pos rfl, if_pos hn, h]
  · rw [if_neg hj]

theorem map_set_self {α β : Type _} (f : α → β) {l : List α} {n : Nat} (x : α) {t : α}
    (ht : l[n]? = some t) (hf : f x = f t) : (l.set n x).map f = l.map f := by
  rw [List.map_set, hf]
  apply set_self_of_getElem?
  rw [List.getElem?_map, ht]
  rfl

/-! ### Invariant: the record at index `i` has id `i`, and the creation
counter equals the collection length. -/

theorem step_idsInv {a b : App} (hs : Step a b) (h : idsInv a) : idsInv b := by
  obtain ⟨hlen, hmap⟩ := h
  cases hs with
  | add ct now =>
      refine ⟨by simp [App.add_task, hlen], ?_⟩
      show (a.tasks ++ [Task.new ct a.tasks_created now]).map Task.id
        = List.range (a.tasks ++ [Task.new ct a.tasks_created now]).length
      rw [List.map_append, hmap, List.length_append]
      simp [Task.new, hlen, List.range_succ]
  | addNone now =>
      exact ⟨hlen, hmap⟩
  | drain m ts hm =>
      obtain ⟨hlt, rfl⟩ := applyMsg_eq_some hm
      refine ⟨by simpa using hlen, ?_⟩
      show (a.tasks.set (msgId m) _).map Task.id = _
      rw [map_set_self Task.id (applyMsgToTask a.tasks[msgId m] m)
        (List.getElem?_eq_getElem hlt) (applyMsgToTask_id _ m)]
      simpa using hmap
  | check now =>
      refine ⟨?_, ?_⟩
      · show a.tasks_created = (a.tasks.map fun t => (t.check_done now).1).length
        simpa using hlen
      · show (a.tasks.map fun t => (t.check_done now).1).map Task.id
          = List.range (a.tasks.map fun t => (t.check_done now).1).length
        rw [List.map_map]
        have hcongr : a.tasks.map (Task.id ∘ fun t => (t.check_done now).1)
            = a.tasks.map Task.id :=
          List.map_congr_left (fun t _ => check_done_fst_id t now)
        rw [hcongr]
        simpa using hmap
  | cancel sendOk =>
      unfold App.cancel_selected_task
      split
      · split
        · split
          · rename_i x1 sel hsel x2 t hget hok
            refine ⟨by simpa using hlen, ?_⟩
            show (a.tasks.set sel { t with pending_cancel := true }).map Task.id = _
            rw [map_set_self Task.id { t with pending_cancel := true } hget rfl]
            simpa using hmap
          · exact ⟨hlen, hmap⟩
        · exact ⟨hlen, hmap⟩
      · exact ⟨hlen, hmap⟩
  | select s =>
      exact ⟨hlen, hmap⟩
  | finish i =>
      unfold App.envFinish
      split
      · rename_i x t hget
        refine ⟨by simpa using hlen, ?_⟩
        show (a.tasks.set i (markFinished t)).map Task.id = _
        rw [map_set_self Task.id (markFinished t) hget (markFinished_id t)]
        simpa using hmap
      · exact ⟨hlen, hmap⟩

theorem reachable_idsInv {a : App} (h : Reachable a) : idsInv a := by
  induction h with
  | init => exact ⟨rfl, rfl⟩
  | step _ hs ih => exact step_idsInv hs ih

theorem idsInv_id_eq {a : App} (h : idsInv a) {i : Nat} {t : Task}
    (ht : a.tasks[i]? = some t) : t.id = i := by
  have h1 : (a.tasks.map Task.id)[i]? = some t.id := by
    rw [List.getElem?_map, ht]
    rfl
  rw [h.2] at h1
  have hi : i < a.tasks.length := (List.getElem?_eq_some_iff.mp ht).1
  rw [List.getElem?_range hi] at h1
  exact (Option.some.inj h1).symm

/-! ### Invariant: `end` is set exactly when the result handle has been
taken. -/

theorem finInv_check_done {t : Task} (now : Time) (h : finInv t) :
    finInv (t.check_done now).1 := by
  unfold Task.check_done
  split
  · simp [finInv]
  · exact h

theorem finInv_markFinished {t : Task} (h : finInv t) : finInv (markFinished t) := by
  unfold finInv at h ⊢
  cases ht : t.handle <;> simp [markFinished, ht] at h ⊢ <;> exact h

theorem step_finInv {a b : App} (hs : Step a b) (h : ∀ t ∈ a.tasks, finInv t) :
    ∀ t ∈ b.tasks, finInv t := by
  cases hs with
  | add ct now =>
      intro t ht
      rcases List.mem_append.mp ht with h1 | h1
      · exact h t h1
      · rw [List.mem_singleton.mp h1]
        simp [finInv, Task.new]
  | addNone now =>
      exact h
  | drain m ts hm =>
      obtain ⟨hlt, rfl⟩ := applyMsg_eq_some hm
      intro t ht
      rcases List.mem_or_eq_of_mem_set ht with h1 | h1
      · exact h t h1
      · subst h1
        have hbase := h _ (List.getElem_mem hlt)
        unfold finInv
        rw [applyMsgToTask_end, applyMsgToTask_handle]
        exact hbase
  | check now =>
      intro t ht
      obtain ⟨s, hs, rfl⟩ := List.mem_map.mp ht
      exact finInv_check_done now (h s hs)
  | cancel sendOk =>
      unfold App.cancel_selected_task
      split
      · split
        · split
          · rename_i x1 sel hsel x2 t0 hget hok
            intro t ht
            rcases List.mem_or_eq_of_mem_set ht with h1 | h1
            · exact h t h1
            · subst h1
              exact h t0 (List.getElem?_mem hget)
          · exact h
        · exact h
      · exact h
  | select s =>
      exact h
  | finish i =>
      unfold App.envFinish
      split
      · rename_i x t0 hget
        intro t ht
        rcases List.mem_or_eq_of_mem_set ht with h1 | h1
        · exact h t h1
        · subst h1
          exact finInv_markFinished (h t0 (List.getElem?_mem hget))
      · exact h

theorem reachable_finInv {a : App} (h : Reachable a) : ∀ t ∈ a.tasks, finInv t := by
  induction h with
  | init => intro t ht; cases ht
  | step _ hs ih => exact step_finInv hs ih

/-! ### Claim C1 -/

/-- Claim C1 is refuted by the code: a drained status message whose id has
no corresponding record is not logged and discarded — the drain loop
indexes `self.tasks[id]` with no bounds check, which panics (modelled by
`applyMsg` returning `none`), both on an empty collection and on an id one
past the end (the code's own FIXME at `main.rs:141` acknowledges this). -/
theorem claim1_unknown_id_drain_panics :
    applyMsg [] (TaskTxMsg.RunReport 0 42) = none
    ∧ applyMsg
        [Task.new { name := "Sleve McDichael", description := "Re-attach turbo encabulator" } 0 0]
        (TaskTxMsg.SleepReport 1) = none :=
  ⟨rfl, rfl⟩

/-! ### Claim C2 -/

/-- Claim C2: for every Task Record whose status is `Canceled`,
`check_done` never sets the status to `Finished` — the status stays
`Canceled` whatever the handle state — and when the handle is observed
finished the record is still finalized: `end` is set to now, progress is
set to 100, and the handle is taken (returned, leaving `none` behind). -/
theorem claim2_check_done_respects_canceled (t : Task) (now : Time) :
    ((({ t with status := TaskStatus.Canceled } : Task).check_done now).1).status
        = TaskStatus.Canceled
    ∧ ({ t with
          status := TaskStatus.Canceled
          handle := some { finished := true } } : Task).check_done now
        = ({ t with
              status := TaskStatus.Canceled
              end_ := some now
              progress := 100
              handle := none }, some { finished := true }) := by
  constructor
  · unfold Task.check_done
    split <;> rfl
  · rfl

/-! ### Claim C3 -/

/-- Claim C3 is refuted by the code: a record that has reached the
terminal status `Finished` changes status again when a later status
message for its id is drained — here a straggler `CancelReport` turns a
`Finished` record into a `Canceled` one, in a state reachable from
`App::default()` by supervisor operations. -/
theorem claim3_terminal_overwritten_cex :
    Reachable claim3Post
    ∧ claim3Pre.tasks.map Task.status = [TaskStatus.Finished]
    ∧ claim3Post.tasks.map Task.status = [TaskStatus.Canceled] := by
  refine ⟨?_, rfl, rfl⟩
  have h0 : Reachable (App.init.add_task (some ctClaim3) 0) :=
    Reachable.step Reachable.init (Step.add ctClaim3 0)
  have h1 : Reachable { App.init.add_task (some ctClaim3) 0 with selected := some 0 } :=
    Reachable.step h0 (Step.select (some 0))
  have h2 : Reachable (({ App.init.add_task (some ctClaim3) 0 with
      selected := some 0 }).cancel_selected_task true) :=
    Reachable.step h1 (Step.cancel true)
  have h3 : Reachable ((({ App.init.add_task (some ctClaim3) 0 with
      selected := some 0 }).cancel_selected_task true).envFinish 0) :=
    Reachable.step h2 (Step.finish 0)
  have h4 : Reachable claim3Pre := Reachable.step h3 (Step.check 1)
  exact Reachable.step h4
    (Step.drain (TaskTxMsg.CancelReport 0)
      ((applyMsg claim3Pre.tasks (TaskTxMsg.CancelReport 0)).getD []) rfl)

/-- Claim C3 amended: `Finished` and `Canceled` are terminal only with
respect to the completion check — `check_done` never moves a `Canceled`
record out of `Canceled`, and once the handle has been taken it leaves
the record entirely unchanged — but not with respect to drained status
messages: each drained message overwrites the record's status with the
status dictated by the message type alone, whatever the current status. -/
theorem claim3_amended_terminal_only_for_check (t : Task) (m : TaskTxMsg) (now : Time) :
    (applyMsgToTask t m).status = drainStatusOfMsg m
    ∧ ((({ t with status := TaskStatus.Canceled } : Task).check_done now).1).status
        = TaskStatus.Canceled
    ∧ ({ t with handle := none } : Task).check_done now = ({ t with handle := none }, none) := by
  refine ⟨?_, ?_, rfl⟩
  · cases m <;> rfl
  · unfold Task.check_done
    split <;> rfl

/-! ### Claim C4 -/

/-- Claim C4 is refuted by the code in the broadcast case: on
`EveryoneStopPls` the termination check returns true without sending any
`CancelReport` (only the addressed `PleaseStop` arm sends one), so the
unit terminates with the cancelled result `none` having emitted no status
message at all. -/
theorem claim4_broadcast_no_report_cex :
    check_for_term_message 7 [RxEvent.msg TaskRxMsg.EveryoneStopPls] false = (true, [])
    ∧ blocking_dummy_task claim4Env 7 5 = some ([], none) :=
  ⟨rfl, rfl⟩

/-- Claim C4 amended: a termination check that finds a `PleaseStop`
addressed to this unit's id emits a `CancelReport` and signals
termination; a check that finds the broadcast `EveryoneStopPls` signals
termination but emits nothing; in either case, when the first check of
the execution loop signals termination the unit stops immediately,
returning the cancelled result `none` (no final sum) and having emitted
only what that check emitted. -/
theorem claim4_amended_cancel_reporting (id : Id) (rest : List RxEvent) (cl : Bool)
    (env : Env) (T : Nat) :
    check_for_term_message id (RxEvent.msg (TaskRxMsg.PleaseStop id) :: rest) cl
      = (true, [TaskTxMsg.CancelReport id])
    ∧ check_for_term_message id (RxEvent.msg TaskRxMsg.EveryoneStopPls :: rest) cl = (true, [])
    ∧ (0 < T →
        (check_for_term_message id (env.rx 0) (env.closed 0)).1 = true →
        blocking_dummy_task env id T
          = some ((check_for_term_message id (env.rx 0) (env.closed 0)).2, none)) := by
  refine ⟨by simp [check_for_term_message], rfl, ?_⟩
  intro hT hch
  cases T with
  | zero => exact absurd hT (Nat.lt_irrefl 0)
  | succ n =>
      unfold blocking_dummy_task runAux
      rw [if_neg (Nat.succ_ne_zero n)]
      simp [hch]

/-- Witness for the amended claim C4 at a concrete input: a unit with id 7
and total duration 5 whose receiver holds `PleaseStop(7)` terminates at
its first check, emitting exactly one `CancelReport` and returning the
cancelled result. -/
theorem claim4_amended_cancel_reporting_witness :
    blocking_dummy_task claim4wEnv 7 5 = some ([TaskTxMsg.CancelReport 7], none) :=
  (claim4_amended_cancel_reporting 7 [] false claim4wEnv 5).2.2 (by decide) rfl

/-! ### Claim C5 -/

/-- Claim C5 is refuted by the code: `cancel_selected_task` checks only
that a record exists at the selected index, never whether it is terminal,
so cancelling an already-`Finished` record is not a no-op — it sets the
record's `pending_cancel` and publishes `RequestStop` for it, both
observable effects. -/
theorem claim5_cancel_terminal_cex :
    Reachable claim5Post
    ∧ claim5Pre.tasks.map Task.status = [TaskStatus.Finished]
    ∧ claim5Pre.tasks.map Task.pending_cancel = [false]
    ∧ claim5Pre.published = []
    ∧ claim5Post.tasks.map Task.pending_cancel = [true]
    ∧ claim5Post.published = [TaskRxMsg.PleaseStop 0] := by
  refine ⟨?_, rfl, rfl, rfl, rfl, rfl⟩
  have h0 : Reachable (App.init.add_task (some ctClaim5) 0) :=
    Reachable.step Reachable.init (Step.add ctClaim5 0)
  have h1 : Reachable ((App.init.add_task (some ctClaim5) 0).envFinish 0) :=
    Reachable.step h0 (Step.finish 0)
  have h2 : Reachable (((App.init.add_task (some ctClaim5) 0).envFinish 0).check_handles 1) :=
    Reachable.step h1 (Step.check 1)
  have h3 : Reachable claim5Pre := Reachable.step h2 (Step.select (some 0))
  exact Reachable.step h3 (Step.cancel true)

/-- Claim C5 amended: the cancellation entry point never changes any
record's status; whenever the table has a selection, a record exists at
that index and the broadcast send succeeds, it publishes
`PleaseStop(record.id)` and sets that record's `pending_cancel` —
regardless of whether the record is terminal; with no selection, no
record at the selection, or a failed send (no live receiver), it is a
no-op with no error visible to the caller. -/
theorem claim5_amended_cancel_unconditional (a : App) (sendOk : Bool) :
    ((a.cancel_selected_task sendOk).tasks.map Task.status = a.tasks.map Task.status)
    ∧ (∀ sel t, a.selected = some sel → a.tasks[sel]? = some t → sendOk = true →
        (a.cancel_selected_task sendOk).published
            = a.published ++ [TaskRxMsg.PleaseStop t.id]
          ∧ (a.cancel_selected_task sendOk).tasks
            = a.tasks.set sel { t with pending_cancel := true })
    ∧ (a.selected = none → a.cancel_selected_task sendOk = a)
    ∧ (∀ sel, a.selected = some sel → a.tasks[sel]? = none →
        a.cancel_selected_task sendOk = a)
    ∧ (sendOk = false → a.cancel_selected_task sendOk = a) := by
  refine ⟨?_, ?_, ?_, ?_, ?_⟩
  · unfold App.cancel_selected_task
    split
    · split
      · split
        · rename_i x1 sel hsel x2 t hget hok
          show (a.tasks.set sel { t with pending_cancel := true }).map Task.status = _
          rw [map_set_self Task.status { t with pending_cancel := true } hget rfl]
        · rfl
      · rfl
    · rfl
  · intro sel t hsel hget hok
    subst hok
    simp [App.cancel_selected_task, hsel, hget]
  · intro hsel
    simp [App.cancel_selected_task, hsel]
  · intro sel hsel hget
    simp [App.cancel_selected_task, hsel, hget]
  · intro hok
    subst hok
    unfold App.cancel_selected_task
    split
    · split
      · rfl
      · rfl
    · rfl

/-- Witness for the amended claim C5 at a concrete input: on a one-record
app with the selection on record 0, a successful cancel publishes
`PleaseStop(0)`, and a failed send leaves the app unchanged. -/
theorem claim5_amended_cancel_unconditional_witness :
    (claim5wApp.cancel_selected_task true).published = [TaskRxMsg.PleaseStop 0]
    ∧ claim5wApp.cancel_selected_task false = claim5wApp :=
  ⟨((claim5_amended_cancel_unconditional claim5wApp true).2.1 0
      (Task.new ctClaim5w 0 0) rfl rfl rfl).1,
    (claim5_amended_cancel_unconditional claim5wApp false).2.2.2.2 rfl⟩

/-! ### Claim C6 -/

/-- Claim C6: in every reachable supervisor state, task ids are strictly
increasing along the record collection and no id occurs twice — even
after tasks terminate, since records are never removed. -/
theorem claim6_ids_strictly_increasing (a : App) (h : Reachable a)
    (i j : Nat) (ti tj : Task)
    (hi : a.tasks[i]? = some ti) (hj : a.tasks[j]? = some tj) :
    (i < j → ti.id < tj.id) ∧ (ti.id = tj.id → i = j) := by
  have inv := reachable_idsInv h
  have e1 := idsInv_id_eq inv hi
  have e2 := idsInv_id_eq inv hj
  constructor
  · intro hlt
    rw [e1, e2]
    exact hlt
  · intro he
    rw [e1, e2] at he
    exact he

/-- Witness for claim C6 at a concrete input: after two creation
requests, the first record's id is strictly below the second's. -/
theorem claim6_ids_strictly_increasing_witness :
    (Task.new ctClaim6a 0 0).id < (Task.new ctClaim6b 1 3).id := by
  have hreach : Reachable claim6wApp :=
    Reachable.step (Reachable.step Reachable.init (Step.add ctClaim6a 0)) (Step.add ctClaim6b 3)
  exact (claim6_ids_strictly_increasing claim6wApp hreach 0 1
    (Task.new ctClaim6a 0 0) (Task.new ctClaim6b 1 3) rfl rfl).1 (by decide)

/-! ### Claim C7 -/

/-- Claim C7 is refuted by the code: draining a `CancelReport` sets the
terminal status `Canceled` but does not set `end` — only the completion
check (which has not yet observed the handle finished) assigns `end` — so
a reachable state holds a record in terminal status with `end` unset. -/
theorem claim7_canceled_without_end_cex :
    Reachable claim7Post
    ∧ claim7Post.tasks.map Task.status = [TaskStatus.Canceled]
    ∧ claim7Post.tasks.map Task.end_ = [none] := by
  refine ⟨?_, rfl, rfl⟩
  have h0 : Reachable (App.init.add_task (some ctClaim7) 0) :=
    Reachable.step Reachable.init (Step.add ctClaim7 0)
  have h1 : Reachable { App.init.add_task (some ctClaim7) 0 with selected := some 0 } :=
    Reachable.step h0 (Step.select (some 0))
  have h2 : Reachable claim7Pre := Reachable.step h1 (Step.cancel true)
  exact Reachable.step h2
    (Step.drain (TaskTxMsg.CancelReport 0)
      ((applyMsg claim7Pre.tasks (TaskTxMsg.CancelReport 0)).getD []) rfl)

/-- Claim C7 amended: in every reachable supervisor state, `end` is set
exactly when the record's result handle has been taken (the record has
been finalized by the completion check) — not exactly when the status is
terminal: a `Canceled` record may transiently have `end` unset until the
completion check observes the unit's handle finished. -/
theorem claim7_amended_end_iff_handle_taken (a : App) (h : Reachable a) :
    ∀ t ∈ a.tasks, (t.end_.isSome = true ↔ t.handle = none) :=
  reachable_finInv h

/-- Witness for the amended claim C7 at a concrete input: the finalized
record of a one-task run has `end` set and its handle taken. -/
theorem claim7_amended_end_iff_handle_taken_witness :
    claim7wTask.end_.isSome = true ↔ claim7wTask.handle = none := by
  have hreach : Reachable claim7wApp :=
    Reachable.step
      (Reachable.step (Reachable.step Reachable.init (Step.add ctClaim7w 0)) (Step.finish 0))
      (Step.check 5)
  have hmem : claim7wTask ∈ claim7wApp.tasks := by decide
  exact claim7_amended_end_iff_handle_taken claim7wApp hreach claim7wTask hmem

/-! ### Claim C8 -/

/-- Claim C8 is refuted by the code on its "exactly 100 at every point
after finalization" part: the drain loop writes the progress carried by a
`RunReport` unconditionally, so a `RunReport` drained after the record
was finalized overwrites the record's progress 100 with a smaller
value. -/
theorem claim8_progress_after_final_cex :
    Reachable claim8Post
    ∧ claim8Pre.tasks.map Task.progress = [100]
    ∧ claim8Pre.tasks.map Task.end_ = [some 1]
    ∧ claim8Post.tasks.map Task.progress = [42] := by
  refine ⟨?_, rfl, rfl, rfl⟩
  have h0 : Reachable (App.init.add_task (some ctClaim8) 0) :=
    Reachable.step Reachable.init (Step.add ctClaim8 0)
  have h1 : Reachable ((App.init.add_task (some ctClaim8) 0).envFinish 0) :=
    Reachable.step h0 (Step.finish 0)
  have h2 : Reachable claim8Pre := Reachable.step h1 (Step.check 1)
  exact Reachable.step h2
    (Step.drain (TaskTxMsg.RunReport 0 42)
      ((applyMsg claim8Pre.tasks (TaskTxMsg.RunReport 0 42)).getD []) rfl)

theorem check_emits_no_run (id : Id) (evs : List RxEvent) (cl : Bool) :
    runProgressList (check_for_term_message id evs cl).2 = [] := by
  induction evs with
  | nil => rfl
  | cons e rest ih =>
      cases e with
      | msg m =>
          cases m with
          | PleaseStop addr =>
              show runProgressList
                (if addr = id then (true, [TaskTxMsg.CancelReport id])
                  else check_for_term_message id rest cl).2 = []
              by_cases haddr : addr = id
              · rw [if_pos haddr]
                rfl
              · rw [if_neg haddr]
                exact ih
          | EveryoneStopPls => rfl
      | lagged n => exact ih

theorem runProgressList_append (l1 l2 : List TaskTxMsg) :
    runProgressList (l1 ++ l2) = runProgressList l1 ++ runProgressList l2 :=
  List.filterMap_append l1 l2 _

theorem runProgressList_run (id : Id) (p : Nat) :
    runProgressList [TaskTxMsg.RunReport id p] = [p] := rfl

theorem runProgressList_sleep (id : Id) :
    runProgressList [TaskTxMsg.SleepReport id] = [] := rfl

theorem progressOf_mono (T : Nat) {q r : Nat} (h : q ≤ r) :
    progressOf T r ≤ progressOf T q :=
  Nat.div_le_div_right (Nat.mul_le_mul (Nat.sub_le_sub_left h T) (Nat.le_refl 100))

theorem progressOf_le_100 (T r : Nat) : progressOf T r ≤ 100 := by
  unfold progressOf
  cases T with
  | zero => simp
  | succ n =>
      have h1 : (n + 1 - r) * 100 ≤ (n + 1) * 100 :=
        Nat.mul_le_mul (Nat.sub_le _ _) (Nat.le_refl 100)
      have h2 : (n + 1) * 100 / (n + 1) = 100 := by
        rw [Nat.mul_comm]
        exact Nat.mul_div_cancel 100 (Nat.succ_pos n)
      calc (n + 1 - r) * 100 / (n + 1) ≤ (n + 1) * 100 / (n + 1) := Nat.div_le_div_right h1
        _ = 100 := h2

/-- The emitted `RunReport` progress values stay sorted and bounded by
100, by induction along the unit's loop: every value already emitted is
at most the progress derived from the current remaining time, and
remaining time only decreases. -/
theorem runAux_progress_invariants (env : Env) (id : Id) (T : Nat) :
    ∀ fuel r c sum out msgs res,
      runAux env id T fuel r c sum out = some (msgs, res) →
      List.Pairwise (· ≤ ·) (runProgressList out) →
      (∀ p ∈ runProgressList out, p ≤ progressOf T r) →
      List.Pairwise (· ≤ ·) (runProgressList msgs)
        ∧ (∀ p ∈ runProgressList msgs, p ≤ 100) := by
  intro fuel
  induction fuel with
  | zero =>
      intro r c sum out msgs res hrun hpw hub
      unfold runAux at hrun
      split at hrun
      · have h1 : out = msgs := congrArg Prod.fst (Option.some.inj hrun)
        subst h1
        exact ⟨hpw, fun p hp => Nat.le_trans (hub p hp) (progressOf_le_100 T r)⟩
      · exact Option.noConfusion hrun
  | succ n ih =>
      intro r c sum out msgs res hrun hpw hub
      unfold runAux at hrun
      split at hrun
      · have h1 : out = msgs := congrArg Prod.fst (Option.some.inj hrun)
        subst h1
        exact ⟨hpw, fun p hp => Nat.le_trans (hub p hp) (progressOf_le_100 T r)⟩
      · split at hrun
        · have h1 : out ++ (check_for_term_message id (env.rx c) (env.closed c)).2 = msgs :=
            congrArg Prod.fst (Option.some.inj hrun)
          subst h1
          simp only [runProgressList_append, check_emits_no_run, List.append_nil]
          exact ⟨hpw, fun p hp => Nat.le_trans (hub p hp) (progressOf_le_100 T r)⟩
        · split at hrun
          · have h1 : out ++ (check_for_term_message id (env.rx c) (env.closed c)).2
                ++ [TaskTxMsg.RunReport id (progressOf T r)]
                ++ (check_for_term_message id (env.rx (c + 1)) (env.closed (c + 1))).2
                = msgs :=
              congrArg Prod.fst (Option.some.inj hrun)
            subst h1
            simp only [runProgressList_append, check_emits_no_run, runProgressList_run,
              List.append_nil]
            constructor
            · rw [List.pairwise_append]
              refine ⟨hpw, List.pairwise_singleton _ _, ?_⟩
              intro p hp q hq
              rw [List.mem_singleton.mp hq]
              exact hub p hp
            · intro p hp
              rcases List.mem_append.mp hp with h2 | h2
              · exact Nat.le_trans (hub p h2) (progressOf_le_100 T r)
              · rw [List.mem_singleton.mp h2]
                exact progressOf_le_100 T r
          · refine ih _ _ _ _ _ _ hrun ?_ ?_
            · simp only [runProgressList_append, check_emits_no_run, runProgressList_run,
                runProgressList_sleep, List.append_nil]
              rw [List.pairwise_append]
              refine ⟨hpw, List.pairwise_singleton _ _, ?_⟩
              intro p hp q hq
              rw [List.mem_singleton.mp hq]
              exact hub p hp
            · intro p hp
              simp only [runProgressList_append, check_emits_no_run, runProgressList_run,
                runProgressList_sleep, List.append_nil] at hp
              have hmono : progressOf T r ≤ progressOf T (r - microsleep_draw (env.draws c) r) :=
                progressOf_mono T (Nat.sub_le r _)
              rcases List.mem_append.mp hp with h2 | h2
              · exact Nat.le_trans (hub p h2) hmono
              · rw [List.mem_singleton.mp h2]
                exact hmono

/-- Claim C8 amended: the `RunReport` progress values emitted by one Work
Unit over its whole run are non-decreasing and bounded by 100, and
finalization by the completion check sets the record's progress to
exactly 100; but the value does not necessarily stay 100 afterwards,
since a straggler `RunReport` drained later overwrites it (the
counterexample above). -/
theorem claim8_amended_progress (env : Env) (id : Id) (T : Nat)
    (msgs : List TaskTxMsg) (res : Option Int)
    (hrun : blocking_dummy_task env id T = some (msgs, res)) (t : Task) (now : Time) :
    List.Pairwise (· ≤ ·) (runProgressList msgs)
    ∧ (∀ p ∈ runProgressList msgs, p ≤ 100)
    ∧ (handleIsFinished t.handle = true → ((t.check_done now).1).progress = 100) := by
  have h := runAux_progress_invariants env id T T T 0 0 [] msgs res hrun
    (List.Pairwise.nil) (by intro p hp; cases hp)
  refine ⟨h.1, h.2, ?_⟩
  intro hfin
  unfold Task.check_done
  rw [hfin]
  rfl

/-- Witness for the amended claim C8 at a concrete input: the trace of a
duration-3 run has non-decreasing progress values 0, 33, 66. -/
theorem claim8_amended_progress_witness :
    List.Pairwise (· ≤ ·) (runProgressList
      [TaskTxMsg.RunReport 3 0, TaskTxMsg.SleepReport 3, TaskTxMsg.RunReport 3 33,
        TaskTxMsg.SleepReport 3, TaskTxMsg.RunReport 3 66, TaskTxMsg.SleepReport 3]) :=
  (claim8_amended_progress claim8wEnv 3 3
    [TaskTxMsg.RunReport 3 0, TaskTxMsg.SleepReport 3, TaskTxMsg.RunReport 3 33,
      TaskTxMsg.SleepReport 3, TaskTxMsg.RunReport 3 66, TaskTxMsg.SleepReport 3]
    (some 15) rfl claim8wTask 9).1

/-! ### Claim C9 -/

/-- With no stop directive ever observed, `r` units of fuel always
suffice: every iteration subtracts a sub-interval of at least 1 from the
remaining time. -/
theorem runAux_no_cancel_total (env : Env) (id : Id) (T : Nat)
    (hnc : ∀ c, (check_for_term_message id (env.rx c) (env.closed c)).1 = false) :
    ∀ fuel r c sum out, r ≤ fuel →
      completedNormally (runAux env id T fuel r c sum out) = true := by
  intro fuel
  induction fuel with
  | zero =>
      intro r c sum out hr
      have h0 : r = 0 := Nat.le_zero.mp hr
      subst h0
      rfl
  | succ n ih =>
      intro r c sum out hr
      unfold runAux
      by_cases hr0 : r = 0
      · rw [if_pos hr0]
        rfl
      · rw [if_neg hr0, hnc c]
        have h1 : 1 ≤ microsleep_draw (env.draws c) r :=
          Nat.succ_le_succ (Nat.zero_le _)
        simp only [Bool.false_eq_true, if_false]
        rw [hnc (c + 1)]
        simp only [Bool.false_eq_true, if_false]
        exact ih _ _ _ _ (by omega)

/-- Claim C9: for every total duration drawn from the initial range
(2..60) and every sequence of oracle draws, a unit that observes no stop
directive terminates — the loop runs within `T` units of fuel — and exits
normally with an accumulated sum as its completion result; moreover every
drawn sub-interval is at least 1 and at most the remaining time, so
remaining time strictly decreases and never wraps. -/
theorem claim9_unit_loop_terminates (env : Env) (id : Id) (T : Nat)
    (hT : 2 ≤ T) (hT60 : T < 60)
    (hnc : ∀ c, (check_for_term_message id (env.rx c) (env.closed c)).1 = false) :
    completedNormally (blocking_dummy_task env id T) = true
    ∧ (∀ d r, 0 < r → 1 ≤ microsleep_draw d r ∧ microsleep_draw d r ≤ r) := by
  refine ⟨runAux_no_cancel_total env id T hnc T T 0 0 [] (Nat.le_refl T), ?_⟩
  intro d r hr
  unfold microsleep_draw
  exact ⟨Nat.succ_le_succ (Nat.zero_le _), Nat.succ_le_of_lt (Nat.mod_lt d hr)⟩

/-- Witness for claim C9 at a concrete input: a duration-5 run with empty
receiver completes normally, and the draw bound holds at `d = 12`,
`r = 9`. -/
theorem claim9_unit_loop_terminates_witness :
    completedNormally (blocking_dummy_task claim9wEnv 4 5) = true
    ∧ (1 ≤ microsleep_draw 12 9 ∧ microsleep_draw 12 9 ≤ 9) :=
  ⟨(claim9_unit_loop_terminates claim9wEnv 4 5 (by decide) (by decide) (fun _ => rfl)).1,
    (claim9_unit_loop_terminates claim9wEnv 4 5 (by decide) (by decide) (fun _ => rfl)).2
      12 9 (by decide)⟩

/-! ### Claim C10 -/

/-- Claim C10: in every reachable supervisor state, the creation counter
equals the collection length and the record stored at index `i` has id
`i` — records are appended with id equal to the counter and never removed
or reordered — which is what makes the drain loop's indexing by the
message's id reach the matching record. -/
theorem claim10_record_index_is_id (a : App) (h : Reachable a) :
    a.tasks_created = a.tasks.length
    ∧ (∀ (i : Nat) (t : Task), a.tasks[i]? = some t → t.id = i) := by
  have inv := reachable_idsInv h
  exact ⟨inv.1, fun i t ht => idsInv_id_eq inv ht⟩

/-- Witness for claim C10 at a concrete input: after two creation
requests the counter is 2 and the record at index 1 has id 1. -/
theorem claim10_record_index_is_id_witness :
    claim10wApp.tasks_created = 2 ∧ (Task.new ctClaim10 1 2).id = 1 := by
  have hreach : Reachable claim10wApp :=
    Reachable.step (Reachable.step Reachable.init (Step.add ctClaim10 0)) (Step.add ctClaim10 2)
  have h := claim10_record_index_is_id claim10wApp hreach
  exact ⟨h.1.trans rfl, h.2 1 (Task.new ctClaim10 1 2) rfl⟩

end Clustrctrl
